import Mathlib

/-!
Verification of the tic-tac-toe rules engine (`src/game.rs`).

The Rust core is embedded shallowly:
* `Player` mirrors `enum Player { X, O }` with its `next` successor.
* `Game` mirrors `struct Game { next_player, arr_squares: [[Option<Player>; 3]; 3] }`;
  the 3×3 array is a function `Fin 3 → Fin 3 → Option Player`.
* `get_coords` mirrors `fn get_coords` (range guard, then `((i-1)/3, (i-1)%3)`).
* `make_move` mirrors `Game::make_move`; since the Rust code mutates in place,
  the embedding returns the outcome together with the post state.  Array
  indexing in Rust panics when out of bounds, so the embedding tracks that
  dead branch explicitly with the `MoveOutcome.panicked` constructor.
* `Game.is_full` and `Game.get_winner` mirror the two queries.
-/

namespace TicTacToe

/-- `enum Player { X, O }` from `game.rs`. -/
inductive Player
  | X
  | O
deriving DecidableEq

/-- `Player::next`: `X ↦ O`, `O ↦ X`. -/
def Player.next : Player → Player
  | .X => .O
  | .O => .X

/-- `struct Game { next_player: Player, arr_squares: [[Option<Player>; 3]; 3] }`. -/
structure Game where
  next_player : Player
  arr_squares : Fin 3 → Fin 3 → Option Player

/-- `Game::new`: empty board, `X` to move. -/
def Game.new : Game :=
  { next_player := .X, arr_squares := fun _ _ => none }

/-- `Game::get_player`: the player of the current turn. -/
def Game.get_player (g : Game) : Player :=
  g.next_player

/-- The two error variants `make_move` can report (in the Rust source they are
`anyhow` messages: "Input must be between 1 and 9" and
"Tile {i} already is already filled by {player}"). -/
inductive MoveError
  | outOfRange
  | cellOccupied (p : Player)
deriving DecidableEq

/-- Result of one `make_move` call.  `panicked` stands for a Rust panic from an
out-of-bounds array index; the verification shows it is unreachable. -/
inductive MoveOutcome
  | ok
  | err (e : MoveError)
  | panicked
deriving DecidableEq

/-- `fn get_coords(i: usize)`: range guard, then `i -= 1` and `(i / 3, i % 3)`.
(The guard ensures `i ≥ 1`, so truncated `Nat` subtraction agrees with `usize`.) -/
def get_coords (i : Nat) : Except MoveError (Nat × Nat) :=
  if i < 1 ∨ 9 < i then .error .outOfRange
  else .ok ((i - 1) / 3, (i - 1) % 3)

/-- The successful branch of `make_move`: `target.insert(self.next_player)`
followed by `self.next_player = current_player.next()`. -/
def set_square (g : Game) (r c : Fin 3) (p : Player) : Game :=
  { next_player := p.next
    arr_squares := fun r' c' => if r' = r ∧ c' = c then some p else g.arr_squares r' c' }

/-- `Game::make_move(i)`.  Errors from `get_coords` propagate via `?` before any
write; an occupied target reports the occupant and writes nothing. -/
def make_move (g : Game) (i : Nat) : MoveOutcome × Game :=
  match get_coords i with
  | .error e => (.err e, g)
  | .ok (r, c) =>
    if hr : r < 3 then
      if hc : c < 3 then
        match g.arr_squares ⟨r, hr⟩ ⟨c, hc⟩ with
        | none => (.ok, set_square g ⟨r, hr⟩ ⟨c, hc⟩ g.next_player)
        | some p => (.err (.cellOccupied p), g)
      else (.panicked, g)
    else (.panicked, g)

/-- `Game::is_full`: every square of every row is `Some`. -/
def Game.is_full (g : Game) : Bool :=
  (List.finRange 3).all fun r => (List.finRange 3).all fun c => (g.arr_squares r c).isSome

/-- Inner loop of `get_winner`: all squares of row `r` equal `p`. -/
def row_all (g : Game) (p : Option Player) (r : Fin 3) : Bool :=
  (List.finRange 3).all fun c => decide (g.arr_squares r c = p)

/-- Inner loop of `get_winner`: all squares of column `c` equal `p`. -/
def col_all (g : Game) (p : Option Player) (c : Fin 3) : Bool :=
  (List.finRange 3).all fun r => decide (g.arr_squares r c = p)

/-- One iteration of the `for player in [Some(X), Some(O)]` loop of
`get_winner`: rows, then columns, then the two diagonals. -/
def wins (g : Game) (p : Option Player) : Bool :=
  ((List.finRange 3).any fun r => row_all g p r) ||
  ((List.finRange 3).any fun c => col_all g p c) ||
  (decide (g.arr_squares 0 0 = p) && decide (g.arr_squares 1 1 = p) &&
    decide (g.arr_squares 2 2 = p)) ||
  (decide (g.arr_squares 0 2 = p) && decide (g.arr_squares 1 1 = p) &&
    decide (g.arr_squares 2 0 = p))

/-- `Game::get_winner`: scan `X` first, then `O`, returning the first player
one of whose lines is fully owned. -/
def Game.get_winner (g : Game) : Option Player :=
  if wins g (some .X) then some .X
  else if wins g (some .O) then some .O
  else none

/-- Read a square by `Nat` coordinates; `none` when out of bounds stands for
the absence of any value (Rust would panic there, but no caller reaches it). -/
def cell (g : Game) (r c : Nat) : Option Player :=
  if h : r < 3 ∧ c < 3 then g.arr_squares ⟨r, h.1⟩ ⟨c, h.2⟩ else none

/-- Number of squares occupied by `p`. -/
def count_mark (g : Game) (p : Player) : Nat :=
  (Finset.univ.filter fun rc : Fin 3 × Fin 3 => g.arr_squares rc.1 rc.2 = some p).card

/-- States reachable from a fresh game by any sequence of `make_move` calls
(failed calls leave the state unchanged, so they step to the same state). -/
inductive Reachable : Game → Prop
  | new : Reachable Game.new
  | step (g : Game) (i : Nat) : Reachable g → Reachable (make_move g i).2

/-- The 8 winning lines written out as in the spec (3 rows, 3 columns, the two
diagonals), each requiring all 3 of its cells occupied by `m`.  This is the
spec-side description that `Game.get_winner` is compared against. -/
def spec_owns_line (g : Game) (m : Player) : Prop :=
  (g.arr_squares 0 0 = some m ∧ g.arr_squares 0 1 = some m ∧ g.arr_squares 0 2 = some m) ∨
  (g.arr_squares 1 0 = some m ∧ g.arr_squares 1 1 = some m ∧ g.arr_squares 1 2 = some m) ∨
  (g.arr_squares 2 0 = some m ∧ g.arr_squares 2 1 = some m ∧ g.arr_squares 2 2 = some m) ∨
  (g.arr_squares 0 0 = some m ∧ g.arr_squares 1 0 = some m ∧ g.arr_squares 2 0 = some m) ∨
  (g.arr_squares 0 1 = some m ∧ g.arr_squares 1 1 = some m ∧ g.arr_squares 2 1 = some m) ∨
  (g.arr_squares 0 2 = some m ∧ g.arr_squares 1 2 = some m ∧ g.arr_squares 2 2 = some m) ∨
  (g.arr_squares 0 0 = some m ∧ g.arr_squares 1 1 = some m ∧ g.arr_squares 2 2 = some m) ∨
  (g.arr_squares 0 2 = some m ∧ g.arr_squares 1 1 = some m ∧ g.arr_squares 2 0 = some m)

/-- A board on which both players own a complete row (unreachable in legal
play, but `get_winner` is specified for every board). -/
def gBoth : Game :=
  { next_player := .X
    arr_squares := fun r _ => if r = 0 then some .X else if r = 1 then some .O else none }

/-- A board on which `X` owns the top row and the bottom-right square is empty
(`O` to move): a won position with empty cells remaining. -/
def gWonX : Game :=
  { next_player := .O
    arr_squares := fun r c => if r = 0 then some .X else if r = 1 ∧ c = 0 then some .O else none }

/-- The state after the single move `5` from a fresh game. -/
def g5 : Game := (make_move Game.new 5).2

instance (g : Game) (m : Player) : Decidable (spec_owns_line g m) := by
  unfold spec_owns_line; infer_instance

theorem get_coords_oor {i : Nat} (h : i < 1 ∨ 9 < i) :
    get_coords i = .error .outOfRange := by
  unfold get_coords; rw [if_pos h]

theorem get_coords_in {i : Nat} (h1 : 1 ≤ i) (h2 : i ≤ 9) :
    get_coords i = .ok ((i - 1) / 3, (i - 1) % 3) := by
  unfold get_coords; rw [if_neg (by omega)]

theorem get_coords_ok {i r c : Nat} (h : get_coords i = .ok (r, c)) :
    1 ≤ i ∧ i ≤ 9 ∧ r = (i - 1) / 3 ∧ c = (i - 1) % 3 := by
  unfold get_coords at h
  split at h
  · exact absurd h (by simp)
  · next hcond =>
    push_neg at hcond
    simp only [Except.ok.injEq, Prod.mk.injEq] at h
    exact ⟨hcond.1, by omega, h.1.symm, h.2.symm⟩

theorem make_move_oor {i : Nat} (g : Game) (h : i < 1 ∨ 9 < i) :
    make_move g i = (.err .outOfRange, g) := by
  unfold make_move
  rw [get_coords_oor h]

theorem row_lt (i : Nat) (h2 : i ≤ 9) : (i - 1) / 3 < 3 := by omega

theorem col_lt (i : Nat) : i % 3 < 3 := by omega

/-- In-range evaluation of `make_move`: look at the target square, then either
fill it or report the occupant. -/
theorem make_move_in {i : Nat} (g : Game) (h1 : 1 ≤ i) (h2 : i ≤ 9) :
    make_move g i =
      match g.arr_squares ⟨(i - 1) / 3, row_lt i h2⟩ ⟨(i - 1) % 3, col_lt (i - 1)⟩ with
      | none => (.ok, set_square g ⟨(i - 1) / 3, row_lt i h2⟩ ⟨(i - 1) % 3, col_lt (i - 1)⟩
          g.next_player)
      | some p => (.err (.cellOccupied p), g) := by
  unfold make_move
  rw [get_coords_in h1 h2]
  simp only [dif_pos (row_lt i h2), dif_pos (col_lt (i - 1))]

theorem cell_eq (g : Game) {r c : Nat} (hr : r < 3) (hc : c < 3) :
    cell g r c = g.arr_squares ⟨r, hr⟩ ⟨c, hc⟩ :=
  dif_pos ⟨hr, hc⟩

theorem set_square_self (g : Game) (t1 t2 : Fin 3) (p : Player) :
    (set_square g t1 t2 p).arr_squares t1 t2 = some p := by
  simp [set_square]

theorem set_square_other (g : Game) (t1 t2 r c : Fin 3) (p : Player)
    (h : ¬(r = t1 ∧ c = t2)) :
    (set_square g t1 t2 p).arr_squares r c = g.arr_squares r c := by
  simp only [set_square]
  rw [if_neg h]

/-- Every `make_move` call either leaves the state unchanged or fills one
previously empty square for the player to move. -/
theorem make_move_cases (g : Game) (i : Nat) :
    (make_move g i).2 = g ∨
      ∃ t1 t2 : Fin 3, g.arr_squares t1 t2 = none ∧
        (make_move g i).2 = set_square g t1 t2 g.next_player := by
  by_cases h : i < 1 ∨ 9 < i
  · left; rw [make_move_oor g h]
  · push_neg at h
    obtain ⟨h1, h2⟩ := h
    rw [make_move_in g h1 h2]
    cases hcell : g.arr_squares ⟨(i - 1) / 3, row_lt i h2⟩ ⟨(i - 1) % 3, col_lt (i - 1)⟩ with
    | none => exact Or.inr ⟨_, _, hcell, rfl⟩
    | some p => exact Or.inl rfl

/-- Filling an empty square raises the mover's count by one and leaves the
other count unchanged. -/
theorem count_set_square (g : Game) (t1 t2 : Fin 3) (cur : Player)
    (hempty : g.arr_squares t1 t2 = none) (p : Player) :
    count_mark (set_square g t1 t2 cur) p =
      count_mark g p + if p = cur then 1 else 0 := by
  unfold count_mark
  by_cases hp : p = cur
  · subst hp
    rw [if_pos rfl]
    have hins :
        (Finset.univ.filter fun rc : Fin 3 × Fin 3 =>
            (set_square g t1 t2 p).arr_squares rc.1 rc.2 = some p) =
          insert (t1, t2)
            (Finset.univ.filter fun rc : Fin 3 × Fin 3 =>
              g.arr_squares rc.1 rc.2 = some p) := by
      ext ⟨a, b⟩
      simp only [Finset.mem_filter, Finset.mem_univ, true_and, Finset.mem_insert,
        Prod.mk.injEq, set_square]
      by_cases hab : a = t1 ∧ b = t2
      · rw [if_pos hab]
        simp [hab.1, hab.2]
      · rw [if_neg hab]
        constructor
        · exact fun hmem => Or.inr hmem
        · rintro (⟨ha, hb⟩ | hmem)
          · exact absurd ⟨ha, hb⟩ hab
          · exact hmem
    rw [hins, Finset.card_insert_of_not_mem]
    simp [hempty]
  · rw [if_neg hp, Nat.add_zero]
    congr 1
    ext ⟨a, b⟩
    simp only [Finset.mem_filter, Finset.mem_univ, true_and, set_square]
    by_cases hab : a = t1 ∧ b = t2
    · rw [if_pos hab]
      simp [hab.1, hab.2, hempty, Ne.symm hp]
    · rw [if_neg hab]

/-- `wins g (some m)` holds exactly when one of the 8 lines is fully owned. -/
theorem wins_iff (g : Game) (m : Player) :
    wins g (some m) = true ↔ spec_owns_line g m := by
  have h3 : List.finRange 3 = [0, 1, 2] := by decide
  simp only [wins, row_all, col_all, h3, List.any_cons, List.any_nil, List.all_cons,
    List.all_nil, Bool.or_eq_true, Bool.and_eq_true, Bool.or_false, Bool.and_true,
    decide_eq_true_eq, spec_owns_line, or_assoc, and_assoc]

/-- Turn/count balance along every reachable state: when `X` is to move the
two counts agree, when `O` is to move `X` leads by one. -/
theorem reachable_balance {g : Game} (h : Reachable g) :
    (g.next_player = .X → count_mark g .X = count_mark g .O) ∧
    (g.next_player = .O → count_mark g .X = count_mark g .O + 1) := by
  induction h with
  | new => exact ⟨fun _ => by decide, fun hO => absurd hO (by decide)⟩
  | step g' i hr ih =>
    rcases make_move_cases g' i with hsame | ⟨t1, t2, hemp, heq⟩
    · rw [hsame]; exact ih
    · rw [heq]
      cases hcur : g'.next_player with
      | X =>
        have hbal := ih.1 hcur
        have hX := count_set_square g' t1 t2 .X hemp .X
        have hO := count_set_square g' t1 t2 .X hemp .O
        constructor
        · intro hc
          simp [set_square, Player.next] at hc
        · intro _
          simp at hX hO
          omega
      | O =>
        have hbal := ih.2 hcur
        have hX := count_set_square g' t1 t2 .O hemp .X
        have hO := count_set_square g' t1 t2 .O hemp .O
        constructor
        · intro _
          simp at hX hO
          omega
        · intro hc
          simp [set_square, Player.next] at hc

/-- Core success lemma: an in-range move on an empty square succeeds, writes
the current player there and advances the turn. -/
theorem make_move_success_core (g : Game) (i : Nat) (h1 : 1 ≤ i) (h2 : i ≤ 9)
    (hempty : cell g ((i - 1) / 3) ((i - 1) % 3) = none) :
    (make_move g i).1 = .ok ∧
    cell (make_move g i).2 ((i - 1) / 3) ((i - 1) % 3) = some g.get_player ∧
    (make_move g i).2.next_player = g.get_player.next := by
  have hr := row_lt i h2
  have hc := col_lt (i - 1)
  rw [cell_eq g hr hc] at hempty
  rw [make_move_in g h1 h2, hempty]
  refine ⟨rfl, ?_, rfl⟩
  rw [cell_eq _ hr hc]
  exact set_square_self g _ _ g.next_player

/-- Core frame lemma: a successful in-range move changes no square other than
its target. -/
theorem make_move_frame (g : Game) (i : Nat) (h1 : 1 ≤ i) (h2 : i ≤ 9)
    (hempty : cell g ((i - 1) / 3) ((i - 1) % 3) = none) :
    ∀ r c : Nat, ¬(r = (i - 1) / 3 ∧ c = (i - 1) % 3) →
      cell (make_move g i).2 r c = cell g r c := by
  intro r c hne
  have hr := row_lt i h2
  have hc := col_lt (i - 1)
  rw [cell_eq g hr hc] at hempty
  rw [make_move_in g h1 h2, hempty]
  by_cases hb : r < 3 ∧ c < 3
  · rw [cell_eq _ hb.1 hb.2, cell_eq g hb.1 hb.2]
    refine set_square_other g _ _ _ _ _ ?_
    rintro ⟨hh1, hh2⟩
    rw [Fin.mk.injEq] at hh1 hh2
    exact hne ⟨hh1, hh2⟩
  · simp only [cell, dif_neg hb]

/-- Inversion: a move that reported `ok` was in range and its target empty. -/
theorem make_move_ok_inv (g : Game) (i : Nat) (h : (make_move g i).1 = .ok) :
    1 ≤ i ∧ i ≤ 9 ∧ cell g ((i - 1) / 3) ((i - 1) % 3) = none := by
  by_cases hb : i < 1 ∨ 9 < i
  · rw [make_move_oor g hb] at h
    simp at h
  · push_neg at hb
    obtain ⟨h1, h2⟩ := hb
    refine ⟨h1, h2, ?_⟩
    rw [make_move_in g h1 h2] at h
    rw [cell_eq g (row_lt i h2) (col_lt (i - 1))]
    rcases hopt : g.arr_squares ⟨(i - 1) / 3, row_lt i h2⟩ ⟨(i - 1) % 3, col_lt (i - 1)⟩
      with _ | p
    · rfl
    · rw [hopt] at h
      simp at h

/-- C1: for every game state and every linear index `i` in `[1,9]` whose target
square `((i-1)/3, (i-1)%3)` is empty, `make_move i` returns success, sets that
square to the mark `get_player` returned before the call, and advances
`next_player` to that mark's successor. -/
theorem make_move_success_spec (g : Game) (i : Nat) (h1 : 1 ≤ i) (h2 : i ≤ 9)
    (hempty : cell g ((i - 1) / 3) ((i - 1) % 3) = none) :
    (make_move g i).1 = .ok ∧
    cell (make_move g i).2 ((i - 1) / 3) ((i - 1) % 3) = some g.get_player ∧
    (make_move g i).2.next_player = g.get_player.next :=
  make_move_success_core g i h1 h2 hempty

/-- Witness for C1: move 5 on a fresh board succeeds, puts `X` at (1,1) and
hands the turn to `O`. -/
theorem make_move_success_spec_witness :
    (make_move Game.new 5).1 = .ok ∧
    cell (make_move Game.new 5).2 1 1 = some Game.new.get_player ∧
    (make_move Game.new 5).2.next_player = Game.new.get_player.next :=
  make_move_success_spec Game.new 5 (by decide) (by decide) (by decide)

/-- C2: `make_move` fails with `outOfRange` when `i < 1` or `i > 9` and with
`cellOccupied` naming the occupant when the target square holds a mark; on both
error paths the whole state (board and turn) is returned unchanged. -/
theorem make_move_error_spec (g : Game) (i : Nat) :
    ((i < 1 ∨ 9 < i) → make_move g i = (.err .outOfRange, g)) ∧
    (∀ p : Player, 1 ≤ i → i ≤ 9 →
      cell g ((i - 1) / 3) ((i - 1) % 3) = some p →
      make_move g i = (.err (.cellOccupied p), g)) := by
  refine ⟨fun h => make_move_oor g h, fun p h1 h2 hocc => ?_⟩
  rw [cell_eq g (row_lt i h2) (col_lt (i - 1))] at hocc
  rw [make_move_in g h1 h2, hocc]

/-- Witness for C2: move 0 is rejected as out of range on a fresh board, and
replaying move 5 after `X` took square 5 is rejected naming `X`, both leaving
the state untouched. -/
theorem make_move_error_spec_witness :
    make_move Game.new 0 = (.err .outOfRange, Game.new) ∧
    make_move g5 5 = (.err (.cellOccupied .X), g5) :=
  ⟨(make_move_error_spec Game.new 0).1 (by decide),
   (make_move_error_spec g5 5).2 .X (by decide) (by decide) (by decide)⟩

/-- Counterexample for C3: on a board where `X` owns the top row and `O` owns
the middle row, `O` owns a complete line yet `get_winner` does not return
`some O` (the scan returns the earlier mark `X`), so the claimed
"`Some(m)` iff `m` owns a line" equivalence fails for `m = O`. -/
theorem get_winner_iff_cex :
    spec_owns_line gBoth Player.O ∧ Game.get_winner gBoth ≠ some Player.O := by
  constructor
  · decide
  · decide

/-- C3 (amended): `get_winner` returns `some m` iff `m` owns one of the 8 lines
and no mark earlier in the fixed scan order (`X` before `O`) owns one; it
returns `none` iff neither mark owns a complete line. -/
theorem get_winner_spec (g : Game) (m : Player) :
    (Game.get_winner g = some m ↔
      spec_owns_line g m ∧ (m = Player.X ∨ ¬ spec_owns_line g Player.X)) ∧
    (Game.get_winner g = none ↔
      ¬ spec_owns_line g Player.X ∧ ¬ spec_owns_line g Player.O) := by
  unfold Game.get_winner
  by_cases hx : wins g (some Player.X) = true
  · have hsx : spec_owns_line g Player.X := (wins_iff g Player.X).mp hx
    rw [if_pos hx]
    refine ⟨?_, by simp [hsx]⟩
    cases m with
    | X => simp [hsx]
    | O => simp [hsx]
  · have hnsx : ¬ spec_owns_line g Player.X := fun hh => hx ((wins_iff g Player.X).mpr hh)
    rw [if_neg hx]
    by_cases ho : wins g (some Player.O) = true
    · have hso : spec_owns_line g Player.O := (wins_iff g Player.O).mp ho
      rw [if_pos ho]
      refine ⟨?_, by simp [hso]⟩
      cases m with
      | X => simp [hnsx]
      | O => simp [hso, hnsx]
    · have hnso : ¬ spec_owns_line g Player.O := fun hh => ho ((wins_iff g Player.O).mpr hh)
      rw [if_neg ho]
      refine ⟨?_, by simp [hnsx, hnso]⟩
      cases m with
      | X => simp [hnsx]
      | O => simp [hnso]

/-- C4: `get_coords` maps every `n` in `[1,9]` to `((n-1)/3, (n-1)%3)`, both
components below 3, with `1 ↦ (0,0)`, `5 ↦ (1,1)`, `9 ↦ (2,2)`. -/
theorem get_coords_spec :
    (∀ n : Nat, 1 ≤ n → n ≤ 9 →
      get_coords n = .ok ((n - 1) / 3, (n - 1) % 3) ∧
      (n - 1) / 3 < 3 ∧ (n - 1) % 3 < 3) ∧
    get_coords 1 = .ok (0, 0) ∧ get_coords 5 = .ok (1, 1) ∧ get_coords 9 = .ok (2, 2) :=
  ⟨fun n h1 h2 => ⟨get_coords_in h1 h2, row_lt n h2, col_lt (n - 1)⟩, rfl, rfl, rfl⟩

/-- Witness for C4: `get_coords 7 = ok (2, 0)` with both coordinates in range. -/
theorem get_coords_spec_witness :
    get_coords 7 = .ok (2, 0) ∧ (2 : Nat) < 3 ∧ (0 : Nat) < 3 :=
  get_coords_spec.1 7 (by decide) (by decide)

/-- C5: in every reachable state the number of `X` squares equals or exceeds by
exactly one the number of `O` squares, and no `make_move` call ever changes a
square that is already occupied. -/
theorem reachable_counts_monotone {g : Game} (h : Reachable g) :
    (count_mark g .X = count_mark g .O ∨ count_mark g .X = count_mark g .O + 1) ∧
    (∀ (i : Nat) (t1 t2 : Fin 3) (p : Player),
      g.arr_squares t1 t2 = some p → ((make_move g i).2).arr_squares t1 t2 = some p) := by
  constructor
  · have hb := reachable_balance h
    cases hcur : g.next_player with
    | X => exact Or.inl (hb.1 hcur)
    | O => exact Or.inr (hb.2 hcur)
  · intro i t1 t2 p hp
    rcases make_move_cases g i with hsame | ⟨s1, s2, hemp, heq⟩
    · rw [hsame]; exact hp
    · rw [heq]
      rw [set_square_other]
      · exact hp
      · rintro ⟨hh1, hh2⟩
        subst hh1; subst hh2
        rw [hp] at hemp
        cases hemp

/-- Witness for C5: after `X` takes square 5, the counts are 1 and 0, and a
further move 7 leaves square (1,1) owned by `X`. -/
theorem reachable_counts_monotone_witness :
    (count_mark g5 .X = count_mark g5 .O ∨ count_mark g5 .X = count_mark g5 .O + 1) ∧
    ((make_move g5 7).2).arr_squares 1 1 = some Player.X :=
  ⟨(reachable_counts_monotone (Reachable.step Game.new 5 Reachable.new)).1,
   (reachable_counts_monotone (Reachable.step Game.new 5 Reachable.new)).2
     7 1 1 Player.X (by decide)⟩

/-- C6: `is_full` is true exactly when all 9 squares are occupied (it is a pure
query in the embedding, so it has no side effects). -/
theorem is_full_spec (g : Game) :
    g.is_full = true ↔ ∀ r c : Fin 3, (g.arr_squares r c).isSome = true := by
  have h3 : List.finRange 3 = [0, 1, 2] := by decide
  simp only [Game.is_full, h3, List.all_cons, List.all_nil, Bool.and_true, Bool.and_eq_true]
  constructor
  · rintro ⟨⟨a00, a01, a02⟩, ⟨a10, a11, a12⟩, a20, a21, a22⟩ r c
    fin_cases r <;> fin_cases c <;> assumption
  · intro h
    exact ⟨⟨h 0 0, h 0 1, h 0 2⟩, ⟨h 1 0, h 1 1, h 1 2⟩, h 2 0, h 2 1, h 2 2⟩

/-- C7: `make_move` never panics: for every state and every `usize` input,
including 0 and values far above 9, it returns a result (the out-of-bounds
indexing branch is unreachable), and every coordinate pair `get_coords`
produces is within the 3×3 bounds. -/
theorem make_move_no_panic (g : Game) (i : Nat) :
    (make_move g i).1 ≠ .panicked ∧
    (∀ r c : Nat, get_coords i = .ok (r, c) → r < 3 ∧ c < 3) := by
  constructor
  · by_cases hb : i < 1 ∨ 9 < i
    · simp [make_move_oor g hb]
    · push_neg at hb
      obtain ⟨h1, h2⟩ := hb
      rw [make_move_in g h1 h2]
      rcases g.arr_squares ⟨(i - 1) / 3, row_lt i h2⟩ ⟨(i - 1) % 3, col_lt (i - 1)⟩
        with _ | p
      · simp
      · simp
  · intro r c hrc
    obtain ⟨h1, h2, hr, hc⟩ := get_coords_ok hrc
    subst hr; subst hc
    exact ⟨row_lt i h2, col_lt (i - 1)⟩

/-- Witness for C7: move 1 on a fresh board does not panic, and the
coordinates `get_coords` yields for 1 are in bounds. -/
theorem make_move_no_panic_witness :
    (make_move Game.new 1).1 ≠ .panicked ∧ (0 : Nat) < 3 ∧ (0 : Nat) < 3 :=
  ⟨(make_move_no_panic Game.new 1).1,
   (make_move_no_panic Game.new 1).2 0 0 (get_coords_in (by decide) (by decide))⟩

/-- C8: `make_move` performs no terminal-state rejection: even when a winner
exists or the board is full with no winner, a move onto an in-range empty
square succeeds and mutates the board exactly as in the normal success case. -/
theorem make_move_after_terminal (g : Game) (i : Nat)
    (_hterm : (Game.get_winner g).isSome = true ∨ g.is_full = true)
    (h1 : 1 ≤ i) (h2 : i ≤ 9)
    (hempty : cell g ((i - 1) / 3) ((i - 1) % 3) = none) :
    (make_move g i).1 = .ok ∧
    cell (make_move g i).2 ((i - 1) / 3) ((i - 1) % 3) = some g.get_player ∧
    (make_move g i).2.next_player = g.get_player.next ∧
    (∀ r c : Nat, ¬(r = (i - 1) / 3 ∧ c = (i - 1) % 3) →
      cell (make_move g i).2 r c = cell g r c) := by
  obtain ⟨hok, hset, hnext⟩ := make_move_success_core g i h1 h2 hempty
  exact ⟨hok, hset, hnext, make_move_frame g i h1 h2 hempty⟩

/-- Witness for C8: on a board already won by `X` (top row) with (2,2) empty,
move 9 still succeeds, writes `O` there and leaves square (0,0) alone. -/
theorem make_move_after_terminal_witness :
    (make_move gWonX 9).1 = .ok ∧
    cell (make_move gWonX 9).2 2 2 = some gWonX.get_player ∧
    cell (make_move gWonX 9).2 0 0 = cell gWonX 0 0 := by
  have h := make_move_after_terminal gWonX 9 (Or.inl (by decide))
    (by decide) (by decide) (by decide)
  exact ⟨h.1, h.2.1, h.2.2.2 0 0 (by decide)⟩

/-- C9: a successful `make_move i` leaves the 8 squares other than its target
`((i-1)/3, (i-1)%3)` exactly unchanged (and the state has no fields besides
the board and `next_player`). -/
theorem make_move_frame_spec (g : Game) (i : Nat)
    (hsucc : (make_move g i).1 = .ok) :
    ∀ r c : Nat, ¬(r = (i - 1) / 3 ∧ c = (i - 1) % 3) →
      cell (make_move g i).2 r c = cell g r c := by
  obtain ⟨h1, h2, hempty⟩ := make_move_ok_inv g i hsucc
  exact make_move_frame g i h1 h2 hempty

/-- Witness for C9: after the successful move 5 from a fresh board, square
(0,0) is unchanged. -/
theorem make_move_frame_spec_witness :
    cell (make_move Game.new 5).2 0 0 = cell Game.new 0 0 :=
  make_move_frame_spec Game.new 5 (by decide) 0 0 (by decide)

/-- C10: in every reachable state, `X` is to move exactly when the two counts
are equal, and `O` is to move exactly when `X` leads by one. -/
theorem reachable_turn_iff_counts {g : Game} (h : Reachable g) :
    (g.next_player = .X ↔ count_mark g .X = count_mark g .O) ∧
    (g.next_player = .O ↔ count_mark g .X = count_mark g .O + 1) := by
  have hb := reachable_balance h
  cases hcur : g.next_player with
  | X =>
    have heq := hb.1 hcur
    exact ⟨iff_of_true rfl heq, iff_of_false (by simp) (by omega)⟩
  | O =>
    have heq := hb.2 hcur
    exact ⟨iff_of_false (by simp) (by omega), iff_of_true rfl heq⟩

/-- Witness for C10: the fresh game has `X` to move and counts 0 = 0. -/
theorem reachable_turn_iff_counts_witness :
    (Game.new.next_player = .X ↔ count_mark Game.new .X = count_mark Game.new .O) ∧
    (Game.new.next_player = .O ↔ count_mark Game.new .X = count_mark Game.new .O + 1) :=
  reachable_turn_iff_counts Reachable.new

end TicTacToe
